import Mathlib

/-
Verification of the Cressi Goa dive-computer driver (src/src/cressi_goa.c).

The driver is shallowly embedded: byte buffers become `List Nat` (each
element a byte value), C unsigned arithmetic is `Nat` with explicit
wrap-around where overflow matters, `dc_status_t` becomes `DcStatus`,
and fallible operations return `Except DcStatus _` or `Option _`.
A read of indeterminate or out-of-bounds memory (undefined behaviour in
the C source) is modelled as `Option.none`.
-/

namespace CressiGoa

set_option maxRecDepth 2000

/-- Status codes of the libdivecomputer API (`dc_status_t`), restricted to
the constructors this driver uses. -/
inductive DcStatus where
  | success
  | unsupported
  | invalidargs
  | nomemory
  | dataformat
  | io
  | protocol
  deriving DecidableEq, Repr

/-- Modelled from the spec: `array_uint16_le` (array.c is not under src/);
little-endian 16-bit decode of the first two bytes, standard semantics. -/
def array_uint16_le (bs : List Nat) : Nat :=
  bs.getD 0 0 + 256 * bs.getD 1 0

/-- Modelled from the spec: one MSB-first shift round of CRC16-CCITT with
polynomial 0x1021 (checksum.c is not under src/). -/
def crc16_rounds : Nat → Nat → Nat
  | 0, c => c
  | n + 1, c =>
      crc16_rounds n
        (if c &&& 0x8000 ≠ 0 then ((c <<< 1) ^^^ 0x1021) % 65536
         else (c <<< 1) % 65536)

/-- Modelled from the spec: `checksum_crc16_ccitt` over a byte list with zero
initial remainder and zero final xor (checksum.c is not under src/). -/
def checksum_crc16_ccitt (data : List Nat) : Nat :=
  data.foldl (fun crc b => crc16_rounds 8 (crc ^^^ ((b % 256) <<< 8))) 0

/-- The mutable state of a `cressi_goa_device_t`: the iostream handle
(abstract) and the 6-byte fingerprint buffer. -/
structure GoaDevice where
  iostream : Nat
  fingerprint : List Nat
  deriving DecidableEq, Repr

/-- Embedding of `cressi_goa_device_set_fingerprint` (cressi_goa.c:369-383):
sizes other than 0 and 6 are rejected, size 6 copies the 6 bytes, size 0
resets the fingerprint to the all-zero sentinel. -/
def cressi_goa_device_set_fingerprint (dev : GoaDevice) (data : List Nat)
    (size : Nat) : DcStatus × GoaDevice :=
  if size ≠ 0 ∧ size ≠ 6 then (DcStatus.invalidargs, dev)
  else if size ≠ 0 then
    (DcStatus.success, { dev with fingerprint := data.take 6 })
  else
    (DcStatus.success, { dev with fingerprint := List.replicate 6 0 })

/-- The 5 x 11 support matrix `version_support_on_model`
(cressi_goa.c:416-423), row = API version 0..4, column = model 1..11. -/
def version_support_on_model : List (List Bool) :=
  [[true, true, false, false, false, false, false, false, false, false, false],
   [true, true, false, false, false, false, false, false, false, false, false],
   [true, true, false, false, false, false, false, false, true, false, false],
   [true, true, true, true, true, true, true, true, true, true, true],
   [true, true, false, true, true, false, false, false, true, true, false]]

/-- Embedding of `cressi_goa_irda_api_version` (cressi_goa.c:393-430).
`some (-1)` is the function's own -1 rejection; `some v` is a resolved API
version.  The matrix subscript `model - 1` is computed in C on an
`unsigned int`, so it is modelled as `(model + 2^32 - 1) % 2^32`; an
out-of-bounds matrix access (undefined behaviour) is `none`. -/
def cressi_goa_irda_api_version (model firmware : Nat) : Option Int :=
  if 11 < model then some (-1)
  else
    let fwv : Option Nat :=
      if 161 ≤ firmware ∧ firmware ≤ 165 then some 0
      else if 166 ≤ firmware ∧ firmware ≤ 169 then some 1
      else if 170 ≤ firmware ∧ firmware ≤ 179 then some 2
      else if (100 ≤ firmware ∧ firmware ≤ 110) ∨ firmware = 900 then some 3
      else if 200 ≤ firmware ∧ firmware ≤ 205 then some 4
      else none
    match fwv with
    | none => some (-1)
    | some version =>
        match (version_support_on_model.get? version).bind
            (fun row => row.get? ((model + 4294967295) % 4294967296)) with
        | none => none
        | some b => if b then some (Int.ofNat version) else some (-1)

/-- The configuration record `struct cressi_goa_irda_api_conf`
(cressi_goa.c:385-391). -/
structure IrdaApiConf where
  version : Nat
  idlen : Nat
  logbook_entry_len : Nat
  logbook_fp_offset : Nat
  cmd_logbook : Nat
  deriving DecidableEq, Repr

/-- The `version_conf` candidate table of `cressi_goa_read_id`
(cressi_goa.c:435-444). -/
def version_conf : List IrdaApiConf :=
  [⟨0, 9, 23, 0x11, 0x21⟩, ⟨4, 11, 15, 3, 0x23⟩]

/-- Embedding of `cressi_goa_read_id` (cressi_goa.c:432-494) from the point
where the version-query response `id` is available.  Faithful to the source:
when no `version_conf` entry matches the response length, the code jumps to
`error_exit` WITHOUT assigning an error to `status`, so the function
returns `DC_STATUS_SUCCESS` with no configuration (`(success, none)`).
`none` (outer) models undefined behaviour propagated from the matrix
lookup. -/
def cressi_goa_read_id (id : List Nat) :
    Option (DcStatus × Option IrdaApiConf) :=
  match version_conf.find? (fun c => c.idlen == id.length) with
  | none => some (DcStatus.success, none)
  | some c =>
      let model := id.getD 4 0
      let firmware := array_uint16_le (id.drop 5)
      match cressi_goa_irda_api_version model firmware with
      | none => none
      | some v =>
          if v = -1 then some (DcStatus.unsupported, none)
          else some (DcStatus.success, some { c with version := v.toNat })

/-- C8: `cressi_goa_device_set_fingerprint` accepts only sizes 0 and 6: any
other size returns `invalidargs` and leaves the whole device (in particular
the stored fingerprint) unchanged; size 6 copies exactly the 6 given bytes
into the fingerprint; size 0 resets it to the all-zero sentinel; in every
case the iostream field is untouched. -/
theorem set_fingerprint_spec :
    ∀ (dev : GoaDevice) (data : List Nat) (size : Nat),
      (size ≠ 0 → size ≠ 6 →
        cressi_goa_device_set_fingerprint dev data size =
          (DcStatus.invalidargs, dev)) ∧
      (cressi_goa_device_set_fingerprint dev data 6 =
        (DcStatus.success, { dev with fingerprint := data.take 6 })) ∧
      (data.length = 6 →
        (cressi_goa_device_set_fingerprint dev data 6).2.fingerprint = data) ∧
      (cressi_goa_device_set_fingerprint dev data 0 =
        (DcStatus.success, { dev with fingerprint := List.replicate 6 0 })) ∧
      ((cressi_goa_device_set_fingerprint dev data size).2.iostream =
        dev.iostream) := by
  intro dev data size
  refine ⟨?_, ?_, ?_, ?_, ?_⟩
  · intro h0 h6
    simp [cressi_goa_device_set_fingerprint, h0, h6]
  · simp [cressi_goa_device_set_fingerprint]
  · intro hlen
    simp [cressi_goa_device_set_fingerprint, List.take_of_length_le,
      hlen.le]
  · simp [cressi_goa_device_set_fingerprint]
  · by_cases h0 : size = 0
    · simp [cressi_goa_device_set_fingerprint, h0]
    · by_cases h6 : size = 6
      · simp [cressi_goa_device_set_fingerprint, h0, h6]
      · simp [cressi_goa_device_set_fingerprint, h0, h6]

/-- C8 witness: the theorem applied at a concrete device, data and the
invalid size 3. -/
theorem set_fingerprint_spec_app :
    cressi_goa_device_set_fingerprint ⟨7, List.replicate 6 1⟩
      [1, 2, 3, 4, 5, 6] 3 =
      (DcStatus.invalidargs, ⟨7, List.replicate 6 1⟩) :=
  (set_fingerprint_spec ⟨7, List.replicate 6 1⟩ [1, 2, 3, 4, 5, 6] 3).1
    (by decide) (by decide)

/-- C10: (code bug) a device-info response with model byte 0 passes the
`model > 11` rejection check, and the matrix subscript `model - 1` then
wraps to 2^32 - 1 on the C `unsigned int`, an out-of-bounds access into the
5 x 11 matrix (modelled `none`); by contrast model 12 really is rejected
(`some (-1)`), and an in-range model such as 1 resolves in bounds.  The
claim that model 0 is rejected as unsupported before the matrix is indexed
is therefore false of the code. -/
theorem irda_api_version_model_zero_oob :
    cressi_goa_irda_api_version 0 163 = none ∧
    cressi_goa_irda_api_version 12 163 = some (-1) ∧
    cressi_goa_irda_api_version 1 163 = some 0 := by
  refine ⟨?_, by decide, by decide⟩
  decide

/-- C2: (code bug) when the version-query response length is neither 9 nor
11, `cressi_goa_read_id` logs an error and jumps to `error_exit`, but the
`status` variable still holds `DC_STATUS_SUCCESS` from the transfer, so the
function returns success (with the output configuration never written),
contradicting the specified data-format/unsupported failure. -/
theorem read_id_unrecognized_length_returns_success :
    cressi_goa_read_id (List.replicate 10 0) = some (DcStatus.success, none) ∧
    cressi_goa_read_id [] = some (DcStatus.success, none) := by
  exact ⟨by decide, by decide⟩

/-- C3: the version matrix: a 9-byte response with (model=1, firmware=163)
resolves to API version 0 with configuration entry_len 23, fp_offset 0x11,
logbook command 0x21; (model=3, firmware=105) resolves to version 3 with the
same configuration; an 11-byte response with (model=9, firmware=202)
resolves to version 4 with entry_len 15, fp_offset 3, command 0x23; and
(model=3, firmware=163) is rejected as unsupported (model 3 is not
supported under API v0). -/
theorem read_id_version_matrix :
    cressi_goa_irda_api_version 1 163 = some 0 ∧
    cressi_goa_irda_api_version 3 105 = some 3 ∧
    cressi_goa_irda_api_version 9 202 = some 4 ∧
    cressi_goa_irda_api_version 3 163 = some (-1) ∧
    cressi_goa_read_id [0, 0, 0, 0, 1, 163, 0, 0, 0] =
      some (DcStatus.success, some ⟨0, 9, 23, 0x11, 0x21⟩) ∧
    cressi_goa_read_id [0, 0, 0, 0, 3, 105, 0, 0, 0] =
      some (DcStatus.success, some ⟨3, 9, 23, 0x11, 0x21⟩) ∧
    cressi_goa_read_id [0, 0, 0, 0, 9, 202, 0, 0, 0, 0, 0] =
      some (DcStatus.success, some ⟨4, 11, 15, 3, 0x23⟩) ∧
    cressi_goa_read_id [0, 0, 0, 0, 3, 163, 0, 0, 0] =
      some (DcStatus.unsupported, none) := by
  refine ⟨by decide, by decide, by decide, by decide, ?_, ?_, ?_, ?_⟩ <;> decide

/-- Bound on one CRC shift round cascade: the result stays below 2^16. -/
theorem crc16_rounds_lt (n : Nat) (c : Nat) (hc : c < 65536) :
    crc16_rounds n c < 65536 := by
  induction n generalizing c with
  | zero => simpa [crc16_rounds] using hc
  | succ k ih =>
      rw [crc16_rounds]
      split <;> exact ih _ (Nat.mod_lt _ (by omega))

/-- The CRC16-CCITT value of any byte list is below 2^16. -/
theorem checksum_crc16_ccitt_lt (data : List Nat) :
    checksum_crc16_ccitt data < 65536 := by
  suffices h : ∀ c, c < 65536 →
      data.foldl (fun crc b => crc16_rounds 8 (crc ^^^ ((b % 256) <<< 8))) c <
        65536 by
    exact h 0 (by omega)
  induction data with
  | nil => intro c hc; simpa using hc
  | cons b rest ih =>
      intro c hc
      refine ih _ (crc16_rounds_lt 8 _ ?_)
      have hb : (b % 256) <<< 8 < 65536 := by
        have : b % 256 < 256 := Nat.mod_lt _ (by omega)
        simp only [Nat.shiftLeft_eq]
        omega
      have h1 : c < 2 ^ 16 := hc
      have h2 : (b % 256) <<< 8 < 2 ^ 16 := hb
      exact Nat.xor_lt_two_pow h1 h2

/-- The little-endian 16-bit decode of an all-zero buffer is zero. -/
theorem array_uint16_le_replicate_zero (n : Nat) (h : 2 ≤ n) :
    array_uint16_le (List.replicate n 0) = 0 := by
  obtain ⟨k, rfl⟩ : ∃ k, n = k + 2 := ⟨n - 2, by omega⟩
  rw [show k + 2 = (k + 1) + 1 from rfl, List.replicate_succ,
    List.replicate_succ]
  simp [array_uint16_le]

/-- The CRC16-CCITT of an all-zero buffer is zero. -/
theorem checksum_crc16_zeros (n : Nat) :
    checksum_crc16_ccitt (List.replicate n 0) = 0 := by
  induction n with
  | zero => rfl
  | succ k ih =>
      rw [List.replicate_succ]
      simp only [checksum_crc16_ccitt, List.foldl_cons] at ih ⊢
      have h0 : crc16_rounds 8 (0 ^^^ ((0 % 256) <<< 8)) = 0 := by decide
      rw [h0]
      exact ih

/-- Embedding of `cressi_goa_device_receive` (cressi_goa.c:120-180).  The
input is the incoming byte stream.  The code reads a 4-byte header
(marker, marker, marker, length), rejects a bad marker or a length above
12, reads `length + 4` further bytes, then rejects a bad trailer byte and a
checksum mismatch; on success the payload (stream bytes 5..5+length) is
returned.  A stream too short for a read is an I/O (timeout) failure. -/
def cressi_goa_device_receive (stream : List Nat) :
    Except DcStatus (List Nat) :=
  match stream with
  | b0 :: b1 :: b2 :: b3 :: rest =>
      if ¬(b0 = 0xAA ∧ b1 = 0xAA ∧ b2 = 0xAA) then
        Except.error DcStatus.protocol
      else if 12 < b3 then Except.error DcStatus.protocol
      else if rest.length < b3 + 4 then Except.error DcStatus.io
      else if (rest.drop (b3 + 3)).headD 0 ≠ 0x55 then
        Except.error DcStatus.protocol
      else if array_uint16_le (rest.drop (b3 + 1)) ≠
          checksum_crc16_ccitt (b3 :: rest.take (b3 + 1)) then
        Except.error DcStatus.protocol
      else Except.ok ((rest.drop 1).take b3)
  | _ => Except.error DcStatus.io

/-- The frame built by `cressi_goa_device_send` (cressi_goa.c:92-104):
marker bytes, length, command, payload, little-endian CRC16-CCITT over
length-command-payload, trailer byte. -/
def cressi_goa_send_frame (cmd : Nat) (data : List Nat) : List Nat :=
  let crc := checksum_crc16_ccitt (data.length :: cmd :: data)
  [0xAA, 0xAA, 0xAA, data.length, cmd] ++ data ++
    [crc % 256, crc / 256 % 256, 0x55]

/-- Embedding of `cressi_goa_device_send` (cressi_goa.c:80-118): payloads
above 12 bytes are rejected with `invalidargs`; otherwise the framed packet
is written to the stream. -/
def cressi_goa_device_send (cmd : Nat) (data : List Nat) :
    Except DcStatus (List Nat) :=
  if 12 < data.length then Except.error DcStatus.invalidargs
  else Except.ok (cressi_goa_send_frame cmd data)

/-- C6: on a full frame (header bytes b0 b1 b2, length byte b3, and the
remaining `b3 + 4` wire bytes), `cressi_goa_device_receive` returns a
Protocol error exactly when a header byte differs from 0xAA, or the length
byte exceeds 12, or the trailer byte differs from 0x55, or the stored
little-endian CRC16-CCITT checksum differs from the one recomputed over
length-command-payload; and when none of these holds it succeeds with
exactly `b3` payload bytes. -/
theorem receive_frame_characterization :
    ∀ (b0 b1 b2 b3 : Nat) (rest : List Nat), rest.length = b3 + 4 →
      (cressi_goa_device_receive (b0 :: b1 :: b2 :: b3 :: rest) =
          Except.error DcStatus.protocol ↔
        (¬(b0 = 0xAA ∧ b1 = 0xAA ∧ b2 = 0xAA) ∨ 12 < b3 ∨
          (rest.drop (b3 + 3)).headD 0 ≠ 0x55 ∨
          array_uint16_le (rest.drop (b3 + 1)) ≠
            checksum_crc16_ccitt (b3 :: rest.take (b3 + 1)))) ∧
      ((b0 = 0xAA ∧ b1 = 0xAA ∧ b2 = 0xAA) → b3 ≤ 12 →
        (rest.drop (b3 + 3)).headD 0 = 0x55 →
        array_uint16_le (rest.drop (b3 + 1)) =
          checksum_crc16_ccitt (b3 :: rest.take (b3 + 1)) →
        cressi_goa_device_receive (b0 :: b1 :: b2 :: b3 :: rest) =
          Except.ok ((rest.drop 1).take b3) ∧
        ((rest.drop 1).take b3).length = b3) := by
  intro b0 b1 b2 b3 rest hlen
  have hio : ¬ rest.length < b3 + 4 := by omega
  have hpay : ((rest.drop 1).take b3).length = b3 := by
    simp only [List.length_take, List.length_drop, hlen]
    omega
  simp only [cressi_goa_device_receive]
  split_ifs with h1 h2 h3 h4 h5 <;>
    first
    | (exact absurd h3 hio)
    | (constructor
       · simp only [ne_eq]
         tauto
       · intro g1 g2 g3 g4
         first
         | exact absurd g1 h1
         | exact absurd h2 (by omega)
         | exact absurd g3 h4
         | exact absurd g4 h5
         | exact ⟨rfl, hpay⟩)

/-- C6 witness: an all-zero 8-byte stream (bad header markers) is rejected
with a Protocol error, via the characterization theorem. -/
theorem receive_frame_characterization_app :
    cressi_goa_device_receive [0, 0, 0, 0, 0, 0, 0, 0] =
      Except.error DcStatus.protocol :=
  ((receive_frame_characterization 0 0 0 0 [0, 0, 0, 0] (by decide)).1).mpr
    (Or.inl (by decide))

/-- C7: for every command byte and payload of at most 12 bytes, `send`
produces its frame, and a stub `receive` of those identical bytes accepts
the frame and recovers the payload: the receive side's recomputed
CRC16-CCITT over length-command-payload reproduces exactly the two
checksum bytes that `send` appended. -/
theorem send_receive_roundtrip :
    ∀ (cmd : Nat) (data : List Nat), data.length ≤ 12 →
      cressi_goa_device_send cmd data =
        Except.ok (cressi_goa_send_frame cmd data) ∧
      cressi_goa_device_receive (cressi_goa_send_frame cmd data) =
        Except.ok data := by
  intro cmd data hlen
  constructor
  · simp [cressi_goa_device_send, Nat.not_lt.mpr hlen]
  · have hcrc_lt : checksum_crc16_ccitt (data.length :: cmd :: data) < 65536 :=
      checksum_crc16_ccitt_lt _
    set crc := checksum_crc16_ccitt (data.length :: cmd :: data) with hcrc
    have hframe : cressi_goa_send_frame cmd data =
        0xAA :: 0xAA :: 0xAA :: data.length ::
          (cmd :: (data ++ [crc % 256, crc / 256 % 256, 0x55])) := by
      simp [cressi_goa_send_frame]
    rw [hframe]
    simp only [cressi_goa_device_receive]
    have hrest : (cmd :: (data ++ [crc % 256, crc / 256 % 256, 0x55])).length =
        data.length + 4 := by
      simp
    have hdrop3 : ((cmd :: (data ++ [crc % 256, crc / 256 % 256, 0x55])).drop
        (data.length + 3)).headD 0 = 0x55 := by
      have : (cmd :: (data ++ [crc % 256, crc / 256 % 256, 0x55])).drop
          (data.length + 3) =
          (data ++ [crc % 256, crc / 256 % 256, 0x55]).drop (data.length + 2) := by
        simp [List.drop_succ_cons, Nat.add_comm]
      rw [this]
      have h2 : (data ++ [crc % 256, crc / 256 % 256, 0x55]).drop
          (data.length + 2) = [crc % 256, crc / 256 % 256, 0x55].drop 2 := by
        rw [← List.drop_drop 2 data.length, List.drop_left]
      rw [h2]
      rfl
    have hdrop1 : (cmd :: (data ++ [crc % 256, crc / 256 % 256, 0x55])).drop
        (data.length + 1) = [crc % 256, crc / 256 % 256, 0x55] := by
      have : (cmd :: (data ++ [crc % 256, crc / 256 % 256, 0x55])).drop
          (data.length + 1) =
          (data ++ [crc % 256, crc / 256 % 256, 0x55]).drop data.length := by
        simp [List.drop_succ_cons, Nat.add_comm]
      rw [this, List.drop_left]
    have htake1 : (cmd :: (data ++ [crc % 256, crc / 256 % 256, 0x55])).take
        (data.length + 1) = cmd :: data := by
      rw [List.take_succ_cons, List.take_append_eq_append_take,
        List.take_length, Nat.sub_self]
      simp
    have hcrceq : array_uint16_le
        ((cmd :: (data ++ [crc % 256, crc / 256 % 256, 0x55])).drop
          (data.length + 1)) =
        checksum_crc16_ccitt (data.length ::
          (cmd :: (data ++ [crc % 256, crc / 256 % 256, 0x55])).take
            (data.length + 1)) := by
      rw [hdrop1, htake1, ← hcrc]
      simp only [array_uint16_le, List.getD_cons_zero, List.getD_cons_succ]
      omega
    have hpayload : ((cmd :: (data ++ [crc % 256, crc / 256 % 256, 0x55])).drop
        1).take data.length = data := by
      simp only [List.drop_succ_cons, List.drop_nil, List.drop_zero]
      rw [List.take_append_eq_append_take, List.take_length, Nat.sub_self]
      simp
    rw [if_neg (by simp), if_neg (by omega), if_neg (by rw [hrest]; omega),
      if_neg (by rw [hdrop3]; simp), if_neg (by rw [hcrceq]; simp), hpayload]

/-- C7 witness: the theorem applied at command 0 with the empty payload. -/
theorem send_receive_roundtrip_app :
    cressi_goa_device_receive (cressi_goa_send_frame 0 []) = Except.ok [] :=
  (send_receive_roundtrip 0 [] (by decide)).2

/-- Embedding of the receive/acknowledge loop of `cressi_goa_device_download`
(cressi_goa.c:197-249).  Each element of `packets` is one fixed 517-byte
chunk (3 header bytes, 512 data bytes, 2 checksum bytes) delivered by one
`dc_iostream_read`; running out of chunks while `nbytes < size` models a
read timeout.  The chunk checksum covers the 512 data bytes; the first
chunk (while `nbytes == 0`) adds the little-endian 16-bit value at its data
offset 0 to the total `size`, and `skip` (2 on the first chunk, 0 after)
drops the size bytes from the appended payload. -/
def cressi_goa_download_loop (packets : List (List Nat))
    (size nbytes skip : Nat) (acc : List Nat) : Except DcStatus (List Nat) :=
  if nbytes < size then
    match packets with
    | [] => Except.error DcStatus.io
    | p :: rest =>
        if array_uint16_le (p.drop 515) ≠
            checksum_crc16_ccitt ((p.drop 3).take 512) then
          Except.error DcStatus.protocol
        else
          let size2 :=
            if nbytes = 0 then size + array_uint16_le (p.drop 3) else size
          let len := if 512 < size2 - nbytes then 512 else size2 - nbytes
          cressi_goa_download_loop rest size2 (nbytes + len) 0
            (acc ++ ((p.drop (3 + skip)).take (len - skip)))
  else Except.ok acc

/-- Embedding of `cressi_goa_device_download` (cressi_goa.c:182-273): the
chunk loop starting from `size = 2`, `nbytes = 0`, `skip = 2`, followed by
the end-byte handshake (the single byte read after the loop must be 0x04). -/
def cressi_goa_device_download (packets : List (List Nat)) (endByte : Nat) :
    Except DcStatus (List Nat) :=
  match cressi_goa_download_loop packets 2 0 2 [] with
  | Except.error e => Except.error e
  | Except.ok acc =>
      if endByte ≠ 0x04 then Except.error DcStatus.protocol
      else Except.ok acc

/-- The 512 data bytes of a download chunk. -/
def chunk_payload (p : List Nat) : List Nat := (p.drop 3).take 512

/-- A full 517-byte chunk carries exactly 512 data bytes. -/
theorem chunk_payload_length (p : List Nat) (hp : p.length = 517) :
    (chunk_payload p).length = 512 := by
  simp [chunk_payload, hp]

/-- The concatenated data bytes of n full chunks have length 512 * n. -/
theorem chunk_flatten_length (packets : List (List Nat))
    (h : ∀ q ∈ packets, q.length = 517) :
    ((packets.map chunk_payload).flatten).length = 512 * packets.length := by
  induction packets with
  | nil => simp
  | cons q rest ih =>
      simp only [List.map_cons, List.flatten_cons, List.length_append,
        List.length_cons]
      rw [chunk_payload_length q (h q (by simp)),
        ih (fun q hq => h q (by simp [hq]))]
      ring

/-- Unfolding: the download loop stops and returns the accumulated output
as soon as `nbytes` has reached `size`. -/
theorem download_loop_stop (packets : List (List Nat))
    (size nbytes skip : Nat) (acc : List Nat) (h : ¬ nbytes < size) :
    cressi_goa_download_loop packets size nbytes skip acc = Except.ok acc := by
  rw [cressi_goa_download_loop.eq_def]
  rw [if_neg h]

/-- Unfolding: one steady-state iteration (`nbytes` nonzero, so `size` is
no longer adjusted and `skip` is 0). -/
theorem download_loop_step (p : List Nat) (rest : List (List Nat))
    (size nbytes : Nat) (acc : List Nat)
    (hlt : nbytes < size) (h0 : ¬ nbytes = 0)
    (hcrc : array_uint16_le (p.drop 515) =
      checksum_crc16_ccitt ((p.drop 3).take 512)) :
    cressi_goa_download_loop (p :: rest) size nbytes 0 acc =
      cressi_goa_download_loop rest size
        (nbytes + (if 512 < size - nbytes then 512 else size - nbytes)) 0
        (acc ++ ((p.drop 3).take
          (if 512 < size - nbytes then 512 else size - nbytes))) := by
  rw [cressi_goa_download_loop.eq_def]
  simp only [if_pos hlt, if_neg (not_ne_iff.mpr hcrc), if_neg h0,
    Nat.add_zero, Nat.sub_zero]

/-- Unfolding: the first iteration (from `size = 2`, `nbytes = 0`,
`skip = 2`) adds the declared extra size E to `size` and skips the two
size bytes of the first chunk. -/
theorem download_loop_first (p : List Nat) (rest : List (List Nat))
    (acc : List Nat)
    (hcrc : array_uint16_le (p.drop 515) =
      checksum_crc16_ccitt ((p.drop 3).take 512)) :
    cressi_goa_download_loop (p :: rest) 2 0 2 acc =
      cressi_goa_download_loop rest (2 + array_uint16_le (p.drop 3))
        (0 + (if 512 < 2 + array_uint16_le (p.drop 3) then 512
              else 2 + array_uint16_le (p.drop 3))) 0
        (acc ++ ((p.drop 5).take
          ((if 512 < 2 + array_uint16_le (p.drop 3) then 512
            else 2 + array_uint16_le (p.drop 3)) - 2))) := by
  rw [cressi_goa_download_loop.eq_def]
  norm_num [if_neg (not_ne_iff.mpr hcrc)]

/-- After the first chunk, the download loop appends exactly the remaining
`size - nbytes` data bytes of the chunk stream to the accumulator. -/
theorem download_loop_steady :
    ∀ (packets : List (List Nat)) (size nbytes : Nat) (acc : List Nat),
      0 < nbytes → nbytes < size →
      (∀ q ∈ packets, q.length = 517) →
      (∀ q ∈ packets, array_uint16_le (q.drop 515) =
        checksum_crc16_ccitt ((q.drop 3).take 512)) →
      size - nbytes ≤ 512 * packets.length →
      cressi_goa_download_loop packets size nbytes 0 acc =
        Except.ok (acc ++
          ((packets.map chunk_payload).flatten.take (size - nbytes))) := by
  intro packets
  induction packets with
  | nil =>
      intro size nbytes acc h0 hlt _ _ hcap
      simp only [List.length_nil, Nat.mul_zero] at hcap
      omega
  | cons q rest ih =>
      intro size nbytes acc h0 hlt hlen hcrc hcap
      have hq : q.length = 517 := hlen q (by simp)
      have hflat : ((q :: rest).map chunk_payload).flatten =
          chunk_payload q ++ (rest.map chunk_payload).flatten := by simp
      rw [download_loop_step q rest size nbytes acc hlt (by omega)
        (hcrc q (by simp))]
      by_cases hbig : 512 < size - nbytes
      · rw [if_pos hbig]
        rw [ih size (nbytes + 512) (acc ++ ((q.drop 3).take 512))
          (by omega) (by omega)
          (fun r hr => hlen r (by simp [hr]))
          (fun r hr => hcrc r (by simp [hr]))
          (by simp only [List.length_cons] at hcap; omega)]
        have hsplit : ((q :: rest).map chunk_payload).flatten.take
            (size - nbytes) =
            chunk_payload q ++
              ((rest.map chunk_payload).flatten.take (size - (nbytes + 512))) := by
          rw [hflat, List.take_append_eq_append_take,
            chunk_payload_length q hq,
            show size - nbytes - 512 = size - (nbytes + 512) from by omega]
          congr 1
          exact List.take_of_length_le
            (by rw [chunk_payload_length q hq]; omega)
        rw [hsplit]
        simp [chunk_payload, List.append_assoc]
      · rw [if_neg hbig]
        rw [download_loop_stop rest size (nbytes + (size - nbytes)) 0 _
          (by omega)]
        rw [hflat, List.take_append_eq_append_take,
          chunk_payload_length q hq,
          show size - nbytes - 512 = 0 by omega]
        simp only [List.take_zero, List.append_nil, chunk_payload,
          List.take_take]
        rw [min_eq_left (by omega)]

/-- C4: for every successful bulk download whose first chunk declares the
2-byte little-endian extra size E at its data offset 0 (total size
T = E + 2), `cressi_goa_device_download` appends exactly T - 2 = E bytes to
the output: the output is the concatenation of the chunks' 512-byte data
payloads truncated to T, with the 2-byte skip applied to the first chunk
only (each chunk contributing min(512, T - received) bytes, the loop
running while received < T).  Hypotheses: every chunk is a full 517-byte
frame with a valid checksum and the stream carries enough chunks
(512 * count at least T). -/
theorem download_total_size :
    ∀ (p : List Nat) (rest : List (List Nat)),
      (∀ q ∈ p :: rest, q.length = 517) →
      (∀ q ∈ p :: rest, array_uint16_le (q.drop 515) =
        checksum_crc16_ccitt ((q.drop 3).take 512)) →
      array_uint16_le (p.drop 3) + 2 ≤ 512 * (p :: rest).length →
      cressi_goa_device_download (p :: rest) 4 =
        Except.ok ((((p :: rest).map chunk_payload).flatten.take
          (array_uint16_le (p.drop 3) + 2)).drop 2) ∧
      ((((p :: rest).map chunk_payload).flatten.take
          (array_uint16_le (p.drop 3) + 2)).drop 2).length =
        array_uint16_le (p.drop 3) := by
  intro p rest hlen hcrc hcap
  have hp : p.length = 517 := hlen p (by simp)
  set E := array_uint16_le (p.drop 3) with hE
  have hdrop5 : (chunk_payload p).drop 2 = (p.drop 5).take 510 := by
    simp only [chunk_payload]
    rw [List.drop_take, List.drop_drop]
  have hflat : ((p :: rest).map chunk_payload).flatten =
      chunk_payload p ++ (rest.map chunk_payload).flatten := by simp
  have hloop : cressi_goa_download_loop (p :: rest) 2 0 2 [] =
      Except.ok ((((p :: rest).map chunk_payload).flatten.take (E + 2)).drop
        2) := by
    rw [download_loop_first p rest [] (hcrc p (by simp)), ← hE]
    by_cases hbig : 512 < 2 + E
    · rw [if_pos hbig]
      rw [download_loop_steady rest (2 + E) (0 + 512)
        ([] ++ ((p.drop 5).take (512 - 2)))
        (by omega) (by omega)
        (fun r hr => hlen r (by simp [hr]))
        (fun r hr => hcrc r (by simp [hr]))
        (by simp only [List.length_cons] at hcap; omega)]
      have htakechunk : (chunk_payload p).take (E + 2) = chunk_payload p :=
        List.take_of_length_le (by rw [chunk_payload_length p hp]; omega)
      rw [hflat, List.take_append_eq_append_take, htakechunk,
        chunk_payload_length p hp, List.drop_append_eq_append_drop,
        chunk_payload_length p hp,
        show (2 : Nat) - 512 = 0 from by norm_num, List.drop_zero, hdrop5,
        show E + 2 - 512 = 2 + E - (0 + 512) from by omega]
      simp
    · rw [if_neg hbig]
      rw [download_loop_stop rest (2 + E) (0 + (2 + E)) 0 _ (by omega)]
      rw [hflat, List.take_append_eq_append_take,
        chunk_payload_length p hp,
        show E + 2 - 512 = 0 by omega]
      simp only [List.take_zero, List.append_nil]
      rw [List.drop_take, hdrop5, List.take_take]
      rw [min_eq_left (by omega)]
      simp
  refine ⟨?_, ?_⟩
  · simp only [cressi_goa_device_download, hloop]
    norm_num
  · have hflatlen : (((p :: rest).map chunk_payload).flatten).length =
        512 * (p :: rest).length := chunk_flatten_length _ hlen
    simp only [List.length_drop, List.length_take, hflatlen]
    simp only [List.length_cons] at hcap ⊢
    omega

/-- C4 witness: a single all-zero chunk declares extra size 0 (total 2),
and the download yields the empty output of length 0. -/
theorem download_total_size_app :
    cressi_goa_device_download [List.replicate 517 0] 4 = Except.ok [] := by
  have hlen : ∀ q ∈ [List.replicate (517:Nat) 0], q.length = 517 := by
    intro q hq
    simp only [List.mem_singleton] at hq
    subst hq
    simp
  have hdrop3 : (List.replicate 517 (0:Nat)).drop 3 = List.replicate 514 0 := by
    rw [List.drop_replicate]
  have hE : array_uint16_le ((List.replicate 517 (0:Nat)).drop 3) = 0 := by
    rw [hdrop3]
    exact array_uint16_le_replicate_zero 514 (by omega)
  have hcrc : ∀ q ∈ [List.replicate (517:Nat) 0],
      array_uint16_le (q.drop 515) =
        checksum_crc16_ccitt ((q.drop 3).take 512) := by
    intro q hq
    simp only [List.mem_singleton] at hq
    subst hq
    rw [List.drop_replicate, hdrop3, List.take_replicate,
      array_uint16_le_replicate_zero (517 - 515) (by omega),
      checksum_crc16_zeros]
  have h := (download_total_size (List.replicate 517 0) [] hlen hcrc
    (by rw [hE]; norm_num)).1
  rw [hE] at h
  have hval : ((([List.replicate (517:Nat) 0]).map chunk_payload).flatten.take
      (0 + 2)).drop 2 = ([] : List Nat) := by
    simp [chunk_payload, hdrop3, List.take_replicate, List.drop_replicate]
  rw [hval] at h
  exact h

/-- Embedding of the dive-header cross-validation inside
`cressi_goa_device_foreach` (cressi_goa.c:581-629).  `entry` is the current
logbook entry (the `conf.logbook_entry_len`-byte slice at the current
offset) and `dive` the downloaded dive payload.  For versions other than 4
the payload must be at least `SZ_HEADER - 5` bytes, its first 2 bytes must
equal the entry's first 2 bytes, and its bytes [2, 18) must equal the
entry's bytes [7, 23); the length guard makes every read in-bounds.  For
version 4 the code reads the 16-bit id at payload offset 0, the 6 date
bytes at offsets 4-9 and the dips byte at offset 14 WITHOUT any length
check; a read beyond the payload is undefined behaviour, modelled `none`.
`some false` is the `DC_STATUS_DATAFORMAT` rejection, `some true`
acceptance. -/
def cressi_goa_validate_dive (version : Nat) (entry dive : List Nat) :
    Option Bool :=
  if version ≠ 4 then
    if dive.length < 23 - 5 then some false
    else if ¬ (dive.take 2 = entry.take 2) then some false
    else if ¬ ((dive.drop 2).take (23 - 7) = (entry.drop 7).take (23 - 7)) then
      some false
    else some true
  else
    if dive.length < 2 then none
    else if ¬ (array_uint16_le dive = array_uint16_le entry) then some false
    else if dive.length < 10 then none
    else if ¬ ((dive.drop 4).take 6 = (entry.drop 3).take 6) then some false
    else if dive.length < 15 then none
    else some true

/-- Embedding of the backward logbook scan of `cressi_goa_device_foreach`
(cressi_goa.c:534-551) that counts the dives to download: starting from
`offset = logbook_size`, while `offset > entry_len` step back one entry;
a zero 16-bit dive number or a fingerprint match (6 bytes at the entry's
fingerprint offset) stops the scan, otherwise the entry is counted.  The
C loop terminates only for a positive entry length (the driver uses 23 or
15), hence the extra `0 < L` guard. -/
def cressi_goa_foreach_count (L fpOff : Nat) (fp table : List Nat)
    (offset : Nat) : Nat :=
  if h : L < offset ∧ 0 < L then
    if array_uint16_le (table.drop (offset - L)) = 0 then 0
    else if (table.drop (offset - L + fpOff)).take 6 = fp then 0
    else cressi_goa_foreach_count L fpOff fp table (offset - L) + 1
  else 0
termination_by offset
decreasing_by simp_wf; omega

/-- Embedding of the dive-download loop of `cressi_goa_device_foreach`
(cressi_goa.c:566-655): `n` iterations stepping `offset` back one entry at
a time; each iteration downloads the dive for the entry (`getDive`, indexed
by the entry offset, models the `CMD_DIVE` transfer), cross-validates the
headers, forms the record `[0xdc, 0xdc, version, entry_len] ++ entry ++
dive` and passes it to the callback together with the 6-byte fingerprint
slice at record offset `4 + fpOff`; a callback returning false stops the
loop without error.  The result is the status together with the list of
records passed to the callback; `none` propagates undefined behaviour from
the validation. -/
def cressi_goa_foreach_dives (ver L fpOff : Nat) (table : List Nat)
    (getDive : Nat → Except DcStatus (List Nat))
    (cont : List Nat → List Nat → Bool) :
    Nat → Nat → Option (DcStatus × List (List Nat))
  | _, 0 => some (DcStatus.success, [])
  | offset, n + 1 =>
      match getDive (offset - L) with
      | Except.error e => some (e, [])
      | Except.ok dive =>
          match cressi_goa_validate_dive ver
              ((table.drop (offset - L)).take L) dive with
          | none => none
          | some false => some (DcStatus.dataformat, [])
          | some true =>
              let record := [0xdc, 0xdc, ver, L] ++
                ((table.drop (offset - L)).take L) ++ dive
              if cont record ((record.drop (4 + fpOff)).take 6) then
                match cressi_goa_foreach_dives ver L fpOff table getDive cont
                    (offset - L) n with
                | none => none
                | some (s, rest) => some (s, record :: rest)
              else some (DcStatus.success, [record])

/-- C9: (code bug) on the API version 4 validation path there is no
minimum-length check (unlike the versions 0-3 path), so a short dive
payload reaches the out-of-bounds reads (modelled `none`): an empty
payload is read at offsets 0-1, and a 14-byte payload that passes both
comparisons is still read at offset 14 (the dips byte) past its end; the
versions 0-3 path by contrast rejects a short payload cleanly
(`some false`, a DataFormat error) before any read. -/
theorem validate_dive_v4_short_payload_oob :
    cressi_goa_validate_dive 4 (List.replicate 15 0) [] = none ∧
    cressi_goa_validate_dive 4 (List.replicate 15 0) (List.replicate 14 0) =
      none ∧
    cressi_goa_validate_dive 0 (List.replicate 23 0) [] = some false := by
  exact ⟨by decide, by decide, by decide⟩

/-- C5: acceptance conditions of the dive-header cross-validation.  For API
versions 0-3 a dive payload is accepted only if it is at least
entry_length - 5 = 18 bytes long, its first 2 bytes equal the logbook
entry's first 2 bytes, and its 16 bytes starting at offset 2 equal the
entry's bytes [7, 23) (the claim's "[2, entry_length-7)" read as the
16-byte block starting at 2).  For version 4 a payload is accepted only if
its 16-bit id equals the entry's (equivalently, bytes [0, 2) coincide,
byte-wise for byte-valued buffers) and its bytes [4, 10) equal the entry's
bytes [3, 9).  Any mismatch (`some false`) makes the enumeration loop abort
with a DataFormat error before the record is assembled or emitted. -/
theorem dive_header_validation :
    (∀ (ver : Nat) (entry dive : List Nat), ver ≠ 4 →
      cressi_goa_validate_dive ver entry dive = some true →
      23 - 5 ≤ dive.length ∧ dive.take 2 = entry.take 2 ∧
        (dive.drop 2).take (23 - 7) = (entry.drop 7).take (23 - 7)) ∧
    (∀ (entry dive : List Nat),
      cressi_goa_validate_dive 4 entry dive = some true →
      array_uint16_le dive = array_uint16_le entry ∧
        (dive.drop 4).take 6 = (entry.drop 3).take 6) ∧
    (∀ (entry dive : List Nat),
      (∀ b ∈ entry, b < 256) → (∀ b ∈ dive, b < 256) → 2 ≤ entry.length →
      cressi_goa_validate_dive 4 entry dive = some true →
      dive.take 2 = entry.take 2) ∧
    (∀ (ver L fpOff : Nat) (table : List Nat)
       (getDive : Nat → Except DcStatus (List Nat))
       (cont : List Nat → List Nat → Bool) (offset n : Nat) (d : List Nat),
      getDive (offset - L) = Except.ok d →
      cressi_goa_validate_dive ver ((table.drop (offset - L)).take L) d =
        some false →
      cressi_goa_foreach_dives ver L fpOff table getDive cont offset (n + 1) =
        some (DcStatus.dataformat, [])) := by
  refine ⟨?_, ?_, ?_, ?_⟩
  · intro ver entry dive hv h
    simp only [cressi_goa_validate_dive, if_pos hv] at h
    split_ifs at h with h1 h2 h3 <;>
      first
      | exact ⟨by omega, by assumption, by assumption⟩
      | simp at h
  · intro entry dive h
    simp only [cressi_goa_validate_dive] at h
    rw [if_neg (by omega : ¬ (4 : Nat) ≠ 4)] at h
    split_ifs at h with h1 h2 h3 h4 h5 <;>
      first
      | exact ⟨by assumption, by assumption⟩
      | simp at h
  · intro entry dive hentry hdive hlen h
    have h2 : ¬ dive.length < 2 := by
      intro hcon
      simp only [cressi_goa_validate_dive] at h
      rw [if_neg (by omega : ¬ (4 : Nat) ≠ 4), if_pos hcon] at h
      simp at h
    have hu : array_uint16_le dive = array_uint16_le entry := by
      simp only [cressi_goa_validate_dive] at h
      rw [if_neg (by omega : ¬ (4 : Nat) ≠ 4)] at h
      split_ifs at h with g1 g2 g3 g4 g5 <;>
        first
        | assumption
        | simp at h
    match dive, entry with
    | d0 :: d1 :: dt, e0 :: e1 :: et =>
        have hd0 : d0 < 256 := hdive d0 (by simp)
        have hd1 : d1 < 256 := hdive d1 (by simp)
        have he0 : e0 < 256 := hentry e0 (by simp)
        have he1 : e1 < 256 := hentry e1 (by simp)
        simp only [array_uint16_le, List.getD_cons_zero,
          List.getD_cons_succ] at hu
        have : d0 = e0 ∧ d1 = e1 := by omega
        simp [this.1, this.2]
    | d0 :: d1 :: dt, [] => simp at hlen
    | d0 :: d1 :: dt, [e0] => simp at hlen
    | [], _ => simp at h2
    | [d0], _ => simp at h2
  · intro ver L fpOff table getDive cont offset n d hget hval
    simp [cressi_goa_foreach_dives, hget, hval]

/-- C5 witness: with a v0 configuration, an empty dive payload (shorter
than 18 bytes) makes the dive loop return a DataFormat error with no
record emitted. -/
theorem dive_header_validation_app :
    cressi_goa_foreach_dives 0 23 17 (List.replicate 23 0)
      (fun _ => Except.ok []) (fun _ _ => true) 23 1 =
      some (DcStatus.dataformat, []) :=
  dive_header_validation.2.2.2 0 23 17 (List.replicate 23 0)
    (fun _ => Except.ok []) (fun _ _ => true) 23 0 [] rfl (by decide)

/-- The 6-byte fingerprint slice of a logbook entry at the configured
offset (cressi_goa.c:546). -/
def fpSlice (fpOff : Nat) (e : List Nat) : List Nat := (e.drop fpOff).take 6

/-- The backward scan of cressi_goa.c:534-551 expressed on the list of
scanned entries (newest first): a zero dive number or a fingerprint match
stops the count. -/
def countEntries (fpOff : Nat) (fp : List Nat) : List (List Nat) → Nat
  | [] => 0
  | e :: rest =>
      if array_uint16_le e = 0 then 0
      else if fpSlice fpOff e = fp then 0
      else countEntries fpOff fp rest + 1

/-- The dive record handed to the callback (cressi_goa.c:631-653): the
4-byte tag, the logbook entry, then the raw dive payload. -/
def mkRecord (ver L : Nat) (e d : List Nat) : List Nat :=
  [0xdc, 0xdc, ver, L] ++ e ++ d

/-- The records formed from a list of entries paired with their dive
payloads. -/
def zipRecords (ver L : Nat) (es ds : List (List Nat)) : List (List Nat) :=
  List.zipWith (mkRecord ver L) es ds

/-- If the first `pre.length + L` bytes of `table` are `pre ++ e`, the
`L`-byte slice of `table` at offset `pre.length` is `e`. -/
theorem table_slice (table pre e : List Nat) (L : Nat) (he : e.length = L)
    (hpre : table.take (pre.length + L) = pre ++ e) :
    (table.drop pre.length).take L = e := by
  have h1 : (table.take (pre.length + L)).drop pre.length = e := by
    rw [hpre, List.drop_left]
  rw [List.drop_take, Nat.add_sub_cancel_left] at h1
  exact h1

/-- The 16-bit little-endian decode only reads the first two bytes, so a
prefix of length at least 2 decodes identically. -/
theorem array_uint16_le_take (l : List Nat) (n : Nat) (h : 2 ≤ n) :
    array_uint16_le (l.take n) = array_uint16_le l := by
  obtain ⟨k, rfl⟩ : ∃ k, n = k + 2 := ⟨n - 2, by omega⟩
  rcases l with _ | ⟨a, _ | ⟨b, t⟩⟩
  · simp
  · rw [List.take_of_length_le (by simp)]
  · rw [show k + 2 = (k + 1) + 1 from rfl, List.take_succ_cons,
      List.take_succ_cons]
    simp [array_uint16_le]

/-- Reading the 6 fingerprint bytes from a buffer whose `L`-byte prefix is
the entry `e` gives the entry's fingerprint slice. -/
theorem fpSlice_of_slice (l e : List Nat) (L fpOff : Nat)
    (hfp : fpOff + 6 ≤ L) (h : l.take L = e) :
    (l.drop fpOff).take 6 = fpSlice fpOff e := by
  simp only [fpSlice, ← h, List.drop_take, List.take_take]
  rw [min_eq_left (by omega)]

/-- Unfolding: the backward scan stops when `offset` is no longer above the
entry length. -/
theorem foreach_count_stop (L fpOff : Nat) (fp table : List Nat)
    (offset : Nat) (h : ¬ (L < offset ∧ 0 < L)) :
    cressi_goa_foreach_count L fpOff fp table offset = 0 := by
  rw [cressi_goa_foreach_count.eq_def, dif_neg h]

/-- Unfolding: one step of the backward scan. -/
theorem foreach_count_step (L fpOff : Nat) (fp table : List Nat)
    (offset : Nat) (h : L < offset ∧ 0 < L) :
    cressi_goa_foreach_count L fpOff fp table offset =
      (if array_uint16_le (table.drop (offset - L)) = 0 then 0
       else if (table.drop (offset - L + fpOff)).take 6 = fp then 0
       else cressi_goa_foreach_count L fpOff fp table (offset - L) + 1) := by
  rw [cressi_goa_foreach_count.eq_def, dif_pos h]

/-- The raw backward scan over a table laid out as `inner ++` the scanned
entries (in buffer order, i.e. reversed scan order) computes
`countEntries` over the scan-order entry list. -/
theorem foreach_count_table (L fpOff : Nat) (fp table : List Nat)
    (hfp : fpOff + 6 ≤ L) :
    ∀ (es : List (List Nat)) (inner : List Nat),
      (∀ e ∈ es, e.length = L) →
      0 < inner.length → inner.length ≤ L →
      table.take (inner.length + es.reverse.flatten.length) =
        inner ++ es.reverse.flatten →
      cressi_goa_foreach_count L fpOff fp table
          (inner.length + es.reverse.flatten.length) =
        countEntries fpOff fp es := by
  intro es
  induction es with
  | nil =>
      intro inner _ _ hle _
      simp only [List.reverse_nil, List.flatten_nil, List.length_nil,
        Nat.add_zero]
      rw [foreach_count_stop L fpOff fp table inner.length
        (by intro hcon; omega)]
      rfl
  | cons e es' ih =>
      intro inner hlen h0 hle hpre
      have heL : e.length = L := hlen e (by simp)
      have hes' : ∀ x ∈ es', x.length = L := fun x hx => hlen x (by simp [hx])
      have hflat : ((e :: es').reverse).flatten =
          es'.reverse.flatten ++ e := by simp
      have hofflen : inner.length + ((e :: es').reverse.flatten).length =
          inner.length + es'.reverse.flatten.length + L := by
        rw [hflat, List.length_append, heL]
        omega
      rw [hofflen] at hpre ⊢
      have hpre2 : table.take ((inner ++ es'.reverse.flatten).length + L) =
          (inner ++ es'.reverse.flatten) ++ e := by
        rw [List.length_append]
        rw [hpre, hflat]
        simp [List.append_assoc]
      have hslice : (table.drop (inner.length + es'.reverse.flatten.length)).take
          L = e := by
        have := table_slice table (inner ++ es'.reverse.flatten) e L heL hpre2
        simpa [List.length_append] using this
      have hL6 : 0 < L := by omega
      rw [foreach_count_step L fpOff fp table _ ⟨by omega, hL6⟩]
      have ho : inner.length + es'.reverse.flatten.length + L - L =
          inner.length + es'.reverse.flatten.length := by omega
      rw [ho]
      have hnum : array_uint16_le
          (table.drop (inner.length + es'.reverse.flatten.length)) =
          array_uint16_le e := by
        rw [← array_uint16_le_take
          (table.drop (inner.length + es'.reverse.flatten.length)) L
          (by omega), hslice]
      have hfps : (table.drop
          (inner.length + es'.reverse.flatten.length + fpOff)).take 6 =
          fpSlice fpOff e := by
        rw [← List.drop_drop]
        exact fpSlice_of_slice
          (table.drop (inner.length + es'.reverse.flatten.length)) e L fpOff
          hfp hslice
      have hpre' : table.take (inner.length + es'.reverse.flatten.length) =
          inner ++ es'.reverse.flatten := by
        have h1 : table.take (inner.length + es'.reverse.flatten.length) =
            (table.take (inner.length + es'.reverse.flatten.length + L)).take
              (inner.length + es'.reverse.flatten.length) := by
          rw [List.take_take, min_eq_left (by omega)]
        rw [h1, hpre, hflat, ← List.append_assoc]
        have h2 : (inner ++ es'.reverse.flatten).length =
            inner.length + es'.reverse.flatten.length := by
          rw [List.length_append]
        rw [← h2, List.take_left]
      rw [hnum, hfps]
      simp only [countEntries]
      split_ifs with h1 h2
      · rfl
      · rfl
      · rw [ih inner hes' h0 hle hpre']

/-- When the scan-order entries start with non-matching, non-empty entries
followed by a fingerprint match, `countEntries` counts exactly the prefix
before the match. -/
theorem countEntries_stop (fpOff : Nat) (fp : List Nat) :
    ∀ (es1 : List (List Nat)) (m : List Nat) (es2 : List (List Nat)),
      (∀ e ∈ es1, array_uint16_le e ≠ 0 ∧ fpSlice fpOff e ≠ fp) →
      fpSlice fpOff m = fp →
      countEntries fpOff fp (es1 ++ m :: es2) = es1.length := by
  intro es1
  induction es1 with
  | nil =>
      intro m es2 _ hm
      by_cases hz : array_uint16_le m = 0 <;>
        simp [countEntries, hz, hm]
  | cons e t ih =>
      intro m es2 h hm
      have he := h e (by simp)
      simp [countEntries, he.1, he.2,
        ih m es2 (fun x hx => h x (by simp [hx])) hm]

/-- When no scanned entry is empty or fingerprint-matching, `countEntries`
counts them all. -/
theorem countEntries_all (fpOff : Nat) (fp : List Nat) :
    ∀ es : List (List Nat),
      (∀ e ∈ es, array_uint16_le e ≠ 0 ∧ fpSlice fpOff e ≠ fp) →
      countEntries fpOff fp es = es.length := by
  intro es
  induction es with
  | nil => intro _; rfl
  | cons e t ih =>
      intro h
      have he := h e (by simp)
      simp [countEntries, he.1, he.2, ih (fun x hx => h x (by simp [hx]))]

/-- Whatever the dive oracle and callback do, the dive loop run for the
first `es.length` scan entries emits records that are exactly the leading
scanned entries (each tagged and paired with some downloaded payload), in
scan order. -/
theorem foreach_dives_emits (ver L fpOff : Nat) (table : List Nat)
    (getDive : Nat → Except DcStatus (List Nat))
    (cont : List Nat → List Nat → Bool) :
    ∀ (es : List (List Nat)) (inner : List Nat) (s : DcStatus)
      (emitted : List (List Nat)),
      (∀ e ∈ es, e.length = L) →
      table.take (inner.length + es.reverse.flatten.length) =
        inner ++ es.reverse.flatten →
      cressi_goa_foreach_dives ver L fpOff table getDive cont
        (inner.length + es.reverse.flatten.length) es.length =
          some (s, emitted) →
      ∃ ds : List (List Nat), ds.length ≤ es.length ∧
        emitted = zipRecords ver L (es.take ds.length) ds := by
  intro es
  induction es with
  | nil =>
      intro inner s emitted _ _ hstep
      refine ⟨[], by simp, ?_⟩
      simp only [List.length_nil, cressi_goa_foreach_dives] at hstep
      simp only [Option.some.injEq, Prod.mk.injEq] at hstep
      simp [← hstep.2, zipRecords]
  | cons e es' ih =>
      intro inner s emitted hlen hpre hstep
      have heL : e.length = L := hlen e (by simp)
      have hes' : ∀ x ∈ es', x.length = L := fun x hx => hlen x (by simp [hx])
      have hflat : ((e :: es').reverse).flatten =
          es'.reverse.flatten ++ e := by simp
      have hofflen : inner.length + ((e :: es').reverse.flatten).length =
          inner.length + es'.reverse.flatten.length + L := by
        rw [hflat, List.length_append, heL]
        omega
      rw [hofflen] at hpre hstep
      have hpre2 : table.take ((inner ++ es'.reverse.flatten).length + L) =
          (inner ++ es'.reverse.flatten) ++ e := by
        rw [List.length_append, hpre, hflat]
        simp [List.append_assoc]
      have hslice : (table.drop
          (inner.length + es'.reverse.flatten.length)).take L = e := by
        have := table_slice table (inner ++ es'.reverse.flatten) e L heL hpre2
        simpa [List.length_append] using this
      have hpre' : table.take (inner.length + es'.reverse.flatten.length) =
          inner ++ es'.reverse.flatten := by
        have h1 : table.take (inner.length + es'.reverse.flatten.length) =
            (table.take (inner.length + es'.reverse.flatten.length + L)).take
              (inner.length + es'.reverse.flatten.length) := by
          rw [List.take_take, min_eq_left (by omega)]
        rw [h1, hpre, hflat, ← List.append_assoc]
        have h2 : (inner ++ es'.reverse.flatten).length =
            inner.length + es'.reverse.flatten.length := by
          rw [List.length_append]
        rw [← h2, List.take_left]
      simp only [List.length_cons, cressi_goa_foreach_dives] at hstep
      have ho : inner.length + es'.reverse.flatten.length + L - L =
          inner.length + es'.reverse.flatten.length := by omega
      rw [ho, hslice] at hstep
      cases hget : getDive (inner.length + es'.reverse.flatten.length) with
      | error err =>
          simp only [hget] at hstep
          simp only [Option.some.injEq, Prod.mk.injEq] at hstep
          refine ⟨[], by simp, ?_⟩
          simp [← hstep.2, zipRecords]
      | ok dive =>
          simp only [hget] at hstep
          cases hval : cressi_goa_validate_dive ver e dive with
          | none =>
              simp only [hval] at hstep
              simp at hstep
          | some b =>
              cases b with
              | false =>
                  simp only [hval] at hstep
                  simp only [Option.some.injEq, Prod.mk.injEq] at hstep
                  refine ⟨[], by simp, ?_⟩
                  simp [← hstep.2, zipRecords]
              | true =>
                  simp only [hval] at hstep
                  by_cases hcont : cont ([0xdc, 0xdc, ver, L] ++ e ++ dive)
                      ((([0xdc, 0xdc, ver, L] ++ e ++ dive).drop
                        (4 + fpOff)).take 6) = true
                  · rw [if_pos hcont] at hstep
                    cases hrec : cressi_goa_foreach_dives ver L fpOff table
                        getDive cont
                        (inner.length + es'.reverse.flatten.length)
                        es'.length with
                    | none =>
                        simp only [hrec] at hstep
                        simp at hstep
                    | some pr =>
                        obtain ⟨s', rest⟩ := pr
                        simp only [hrec] at hstep
                        simp only [Option.some.injEq, Prod.mk.injEq] at hstep
                        obtain ⟨ds', hle', heq'⟩ :=
                          ih inner s' rest hes' hpre' hrec
                        refine ⟨dive :: ds', by simp; omega, ?_⟩
                        rw [← hstep.2, heq']
                        simp [zipRecords, mkRecord, List.take_succ_cons]
                  · rw [if_neg hcont] at hstep
                    simp only [Option.some.injEq, Prod.mk.injEq] at hstep
                    refine ⟨[dive], by simp, ?_⟩
                    rw [← hstep.2]
                    simp [zipRecords, mkRecord, List.take_succ_cons]

/-- With a dive oracle that always succeeds and validates and a callback
that always continues, the dive loop emits a record for every scanned
entry. -/
theorem foreach_dives_all (ver L fpOff : Nat) (table : List Nat)
    (getDive : Nat → Except DcStatus (List Nat)) :
    ∀ (es : List (List Nat)) (inner : List Nat),
      (∀ e ∈ es, e.length = L) →
      table.take (inner.length + es.reverse.flatten.length) =
        inner ++ es.reverse.flatten →
      (∀ o, ∃ d, getDive o = Except.ok d ∧
        cressi_goa_validate_dive ver ((table.drop o).take L) d = some true) →
      ∃ ds : List (List Nat), ds.length = es.length ∧
        cressi_goa_foreach_dives ver L fpOff table getDive
          (fun _ _ => true) (inner.length + es.reverse.flatten.length)
          es.length = some (DcStatus.success, zipRecords ver L es ds) := by
  intro es
  induction es with
  | nil =>
      intro inner _ _ _
      exact ⟨[], rfl, by simp [cressi_goa_foreach_dives, zipRecords]⟩
  | cons e es' ih =>
      intro inner hlen hpre hdives
      have heL : e.length = L := hlen e (by simp)
      have hes' : ∀ x ∈ es', x.length = L := fun x hx => hlen x (by simp [hx])
      have hflat : ((e :: es').reverse).flatten =
          es'.reverse.flatten ++ e := by simp
      have hofflen : inner.length + ((e :: es').reverse.flatten).length =
          inner.length + es'.reverse.flatten.length + L := by
        rw [hflat, List.length_append, heL]
        omega
      rw [hofflen] at hpre
      have hpre2 : table.take ((inner ++ es'.reverse.flatten).length + L) =
          (inner ++ es'.reverse.flatten) ++ e := by
        rw [List.length_append, hpre, hflat]
        simp [List.append_assoc]
      have hslice : (table.drop
          (inner.length + es'.reverse.flatten.length)).take L = e := by
        have := table_slice table (inner ++ es'.reverse.flatten) e L heL hpre2
        simpa [List.length_append] using this
      have hpre' : table.take (inner.length + es'.reverse.flatten.length) =
          inner ++ es'.reverse.flatten := by
        have h1 : table.take (inner.length + es'.reverse.flatten.length) =
            (table.take (inner.length + es'.reverse.flatten.length + L)).take
              (inner.length + es'.reverse.flatten.length) := by
          rw [List.take_take, min_eq_left (by omega)]
        rw [h1, hpre, hflat, ← List.append_assoc]
        have h2 : (inner ++ es'.reverse.flatten).length =
            inner.length + es'.reverse.flatten.length := by
          rw [List.length_append]
        rw [← h2, List.take_left]
      obtain ⟨d, hd, hvd⟩ :=
        hdives (inner.length + es'.reverse.flatten.length)
      rw [hslice] at hvd
      obtain ⟨ds', hlen', heq'⟩ := ih inner hes' hpre' hdives
      refine ⟨d :: ds', by simp [hlen'], ?_⟩
      rw [hofflen]
      simp only [List.length_cons, cressi_goa_foreach_dives]
      have ho : inner.length + es'.reverse.flatten.length + L - L =
          inner.length + es'.reverse.flatten.length := by omega
      rw [ho, hslice]
      simp only [hd, hvd, heq']
      simp [zipRecords, mkRecord]

/-- C1: incremental sync of `cressi_goa_device_foreach` on a downloaded
logbook table laid out as a header `pad` (1 to entry_len bytes, so every
entry is reachable by the backward scan) followed by the entries in buffer
order; `es1, m, es2` list the entries in scan order (from the table end
toward its start).  Part one: if the entries scanned before `m` are
non-empty and do not match the stored fingerprint and `m`'s fingerprint
slice matches it, the backward scan stops exactly at `m` (count =
`es1.length`), and for every dive oracle and callback the records passed
to the callback are exactly tagged copies of a prefix of `es1` — the
matching entry `m` and every entry before it (closer to the table start)
are never passed.  Part two: when the stored fingerprint is the all-zero
sentinel and no (non-empty) entry's fingerprint slice is all-zero, the
scan counts every entry, and with a successfully validating dive oracle
and an always-continue callback every entry is passed to the callback.  -/
theorem foreach_fingerprint_incremental_sync :
    (∀ (L fpOff ver : Nat) (fp pad : List Nat) (es1 : List (List Nat))
       (m : List Nat) (es2 : List (List Nat)),
      fpOff + 6 ≤ L → 0 < pad.length → pad.length ≤ L →
      (∀ e ∈ es1 ++ m :: es2, e.length = L) →
      (∀ e ∈ es1, array_uint16_le e ≠ 0 ∧ fpSlice fpOff e ≠ fp) →
      fpSlice fpOff m = fp →
      cressi_goa_foreach_count L fpOff fp
          (pad ++ (es1 ++ m :: es2).reverse.flatten)
          (pad ++ (es1 ++ m :: es2).reverse.flatten).length = es1.length ∧
      (∀ (getDive : Nat → Except DcStatus (List Nat))
         (cont : List Nat → List Nat → Bool) (s : DcStatus)
         (emitted : List (List Nat)),
        cressi_goa_foreach_dives ver L fpOff
            (pad ++ (es1 ++ m :: es2).reverse.flatten) getDive cont
            (pad ++ (es1 ++ m :: es2).reverse.flatten).length es1.length =
          some (s, emitted) →
        ∃ ds : List (List Nat), ds.length ≤ es1.length ∧
          emitted = zipRecords ver L (es1.take ds.length) ds)) ∧
    (∀ (L fpOff ver : Nat) (pad : List Nat) (es : List (List Nat)),
      fpOff + 6 ≤ L → 0 < pad.length → pad.length ≤ L →
      (∀ e ∈ es, e.length = L) →
      (∀ e ∈ es, array_uint16_le e ≠ 0 ∧
        fpSlice fpOff e ≠ List.replicate 6 0) →
      cressi_goa_foreach_count L fpOff (List.replicate 6 0)
          (pad ++ es.reverse.flatten)
          (pad ++ es.reverse.flatten).length = es.length ∧
      (∀ getDive : Nat → Except DcStatus (List Nat),
        (∀ o, ∃ d, getDive o = Except.ok d ∧
          cressi_goa_validate_dive ver
            (((pad ++ es.reverse.flatten).drop o).take L) d = some true) →
        ∃ ds : List (List Nat), ds.length = es.length ∧
          cressi_goa_foreach_dives ver L fpOff (pad ++ es.reverse.flatten)
            getDive (fun _ _ => true) (pad ++ es.reverse.flatten).length
            es.length = some (DcStatus.success, zipRecords ver L es ds))) := by
  constructor
  · intro L fpOff ver fp pad es1 m es2 hfp hpad0 hpadL hlen hes1 hm
    have hes1len : ∀ e ∈ es1, e.length = L := fun e he =>
      hlen e (by simp [he])
    have hpreFull : (pad ++ (es1 ++ m :: es2).reverse.flatten).take
        (pad.length + (es1 ++ m :: es2).reverse.flatten.length) =
        pad ++ (es1 ++ m :: es2).reverse.flatten := by
      rw [← List.length_append, List.take_length]
    have htab : pad ++ (es1 ++ m :: es2).reverse.flatten =
        (pad ++ (m :: es2).reverse.flatten) ++ es1.reverse.flatten := by
      rw [List.reverse_append, List.flatten_append, ← List.append_assoc]
    have hlenA : (pad ++ (es1 ++ m :: es2).reverse.flatten).length =
        (pad ++ (m :: es2).reverse.flatten).length +
          es1.reverse.flatten.length := by
      rw [htab, List.length_append]
    have hpreA : (pad ++ (es1 ++ m :: es2).reverse.flatten).take
        ((pad ++ (m :: es2).reverse.flatten).length +
          es1.reverse.flatten.length) =
        (pad ++ (m :: es2).reverse.flatten) ++ es1.reverse.flatten := by
      rw [← hlenA, List.take_length, htab]
    constructor
    · rw [List.length_append]
      rw [foreach_count_table L fpOff fp _ hfp (es1 ++ m :: es2) pad hlen
        hpad0 hpadL hpreFull]
      exact countEntries_stop fpOff fp es1 m es2 hes1 hm
    · intro getDive cont s emitted hstep
      rw [hlenA] at hstep
      exact foreach_dives_emits ver L fpOff _ getDive cont es1
        (pad ++ (m :: es2).reverse.flatten) s emitted hes1len hpreA hstep
  · intro L fpOff ver pad es hfp hpad0 hpadL hlen hes
    have hpreFull : (pad ++ es.reverse.flatten).take
        (pad.length + es.reverse.flatten.length) =
        pad ++ es.reverse.flatten := by
      rw [← List.length_append, List.take_length]
    constructor
    · rw [List.length_append]
      rw [foreach_count_table L fpOff (List.replicate 6 0) _ hfp es pad hlen
        hpad0 hpadL hpreFull]
      exact countEntries_all fpOff (List.replicate 6 0) es hes
    · intro getDive hdives
      obtain ⟨ds, h1, h2⟩ := foreach_dives_all ver L fpOff
        (pad ++ es.reverse.flatten) getDive es pad hlen hpreFull hdives
      refine ⟨ds, h1, ?_⟩
      rw [List.length_append]
      exact h2

/-- C1 witness: a table with a 1-byte header and two 23-byte entries, the
newer one non-matching, the older one carrying the stored fingerprint
`[9,9,9,9,9,9]` at offset 0x11: the backward scan counts exactly 1 dive. -/
theorem foreach_fingerprint_incremental_sync_app :
    cressi_goa_foreach_count 23 17 [9, 9, 9, 9, 9, 9]
      ([0] ++ ([1 :: List.replicate 22 0] ++
        (1 :: (List.replicate 16 0 ++ [9, 9, 9, 9, 9, 9])) :: []).reverse.flatten)
      ([0] ++ ([1 :: List.replicate 22 0] ++
        (1 :: (List.replicate 16 0 ++ [9, 9, 9, 9, 9, 9])) :: []).reverse.flatten).length =
      1 :=
  (foreach_fingerprint_incremental_sync.1 23 17 0 [9, 9, 9, 9, 9, 9] [0]
    [1 :: List.replicate 22 0]
    (1 :: (List.replicate 16 0 ++ [9, 9, 9, 9, 9, 9])) []
    (by omega) (by decide) (by decide) (by decide) (by decide) (by decide)).1

end CressiGoa
